import Mathlib

/-!
# Verification of the `dbf` DBF-file reader

A shallow embedding of `dbf.go` (package `dbf`): header parsing
(`readMetadata`), field-descriptor parsing (`readFields` / `readField`),
encoding resolution (`New` / `getDecoderByLDID`), per-record decoding
(`Read` / `decodeFieldValue`), and the two access modes (`ReadAll` and the
documented `Next`/`Read` streaming loop), together with theorems settling
the specification claims.

A byte stream is a `List Nat` (each element a byte value); multi-byte
little-endian assembly reduces elements mod 256 exactly as Go's
`binary.LittleEndian` operates on `byte` values.  Fallible Go calls return
`Except`, Go slice-indexing panics are a distinguished `panicked` outcome,
and the mutable `Reader` is threaded explicitly.
-/

namespace Dbf

/-! ## Byte-stream primitives (Go standard library collaborators) -/

/-- Modelled from the spec: `bufio.Reader.ReadByte` — read one byte or fail
with the end-of-stream signal when the stream is empty. -/
def readByte (s : List Nat) : Except Unit (Nat × List Nat) :=
  match s with
  | [] => .error ()
  | b :: rest => .ok (b, rest)

/-- `binary.LittleEndian.Uint16` over two bytes. -/
def le16 (b0 b1 : Nat) : Nat :=
  b0 % 256 + 256 * (b1 % 256)

/-- `binary.LittleEndian.Uint32` over four bytes. -/
def le32 (b0 b1 b2 b3 : Nat) : Nat :=
  b0 % 256 + 256 * (b1 % 256) + 65536 * (b2 % 256) + 16777216 * (b3 % 256)

/-- `bytes.TrimRight(bs, "\x00")`: drop trailing zero bytes. -/
def trimRightNulls (bs : List Nat) : List Nat :=
  (bs.reverse.dropWhile (· == 0)).reverse

/-- The six ASCII whitespace bytes trimmed by `bytes.TrimSpace`. -/
def isSpaceByte (b : Nat) : Bool :=
  b == 32 || b == 9 || b == 10 || b == 11 || b == 12 || b == 13

/-- Modelled from the spec: `bytes.TrimSpace` — "trim ASCII whitespace from
both ends (not just padding — any space character)".  Bytes ≥ 0x80 are not
valid one-byte UTF-8 and are never trimmed by the Go implementation either. -/
def trimSpace (bs : List Nat) : List Nat :=
  ((bs.dropWhile isSpaceByte).reverse.dropWhile isSpaceByte).reverse

/-! ## Text decoders

The transcoding collaborator (`golang.org/x/text/encoding`).  The five
named single-byte codepage decoders used by the package never fail on any
byte input (undefined positions decode to the replacement character), so
their byte-level output is modelled abstractly as the identity; a custom
decoder supplied through `WithDecoder` is an arbitrary partial function
and may fail. -/

inductive Decoder where
  | cp866
  | cp1251
  | cp1252
  | cp437
  | cp850
  | custom (f : List Nat → Option (List Nat))

/-- Modelled from the spec: `decoder.Bytes` — "decode byte sequence of
encoding E to logical text"; named codepage decoders always succeed,
a custom decoder may fail (`none`). -/
def Decoder.bytes : Decoder → List Nat → Option (List Nat)
  | .custom f, bs => f bs
  | _, bs => some bs

/-! ## Errors

Mirrors the error values produced in `dbf.go`.  `fmt.Errorf("...: %w", err)`
wrapping is modelled by the `wrap`-style constructors, so a wrapped
end-of-stream error is distinct from the bare `io.EOF` sentinel — exactly
the distinction `Reader.Err` tests with `r.err == io.EOF`. -/

/-- The fixed wrap-context strings used by `fmt.Errorf` call sites in `dbf.go`. -/
inductive Step where
  | readFileType
  | readLastUpdateDate
  | readRecordsCount
  | readHeaderSize
  | readRecordSize
  | readReservedBytes
  | readTerminator
  | readFieldBytes
  | readRecordBytes
  | readMetadataStep
  | readFieldsStep
  deriving DecidableEq

inductive GoError where
  /-- the `io.EOF` sentinel -/
  | eof
  /-- the `io.ErrUnexpectedEOF` sentinel (short read inside `io.ReadFull`) -/
  | unexpectedEOF
  /-- `fmt.Errorf("unknown file type: 0x%02X", b)` -/
  | unknownFileType (b : Nat)
  /-- the encoding-undetermined construction error, carrying its message -/
  | encodingUndetermined (msg : String)
  /-- `fmt.Errorf("invalid field descriptor terminator: 0x%02X, expected 0x0D", b)` -/
  | invalidTerminator (b : Nat)
  /-- `fmt.Errorf("<step>: %w", e)` -/
  | wrap (step : Step) (e : GoError)
  /-- `fmt.Errorf("read field %d: %w", i, e)` -/
  | readFieldAt (i : Nat) (e : GoError)
  /-- `fmt.Errorf("decode field %s: %w", name, e)` -/
  | decodeField (name : List Nat) (e : GoError)
  deriving DecidableEq

/-- Modelled from the spec: `io.ReadFull` — read exactly `n` bytes; an empty
stream yields `io.EOF`, a non-empty short read yields `io.ErrUnexpectedEOF`,
and in either failure case whatever was available has been consumed. -/
def readFull (n : Nat) (s : List Nat) : Except GoError (List Nat × List Nat) :=
  if n ≤ s.length then .ok (s.take n, s.drop n)
  else if s.isEmpty then .error .eof
  else .error .unexpectedEOF

/-! ## Data model -/

/-- `dbf.Field`: a single field definition.  The Go field `Type` is `Typ`
here (`Type` is reserved in Lean); names are byte strings. -/
structure Field where
  Name : List Nat
  Typ : Nat
  MemoryAddress : Nat
  Length : Nat
  DecimalCount : Nat
  deriving DecidableEq

/-- Total declared byte width of a field list (the sum the record-slicing
loop of `Read` walks through). -/
def fieldsSpan (fields : List Field) : Nat :=
  (fields.map (fun f => f.Length)).sum

/-- `dbf.Record`: deletion flag plus the field values.  The Go
`map[string]string` is modelled as the insertion sequence of
`(name, value)` assignments, one per field in field order. -/
structure Record where
  Deleted : Bool
  Data : List (List Nat × List Nat)

/-- `dbf.Reader`: the reader state.  The `bufio.Reader` is modelled by the
remaining byte stream `stream`; `lastUpdate` keeps the `(year, month, day)`
triple passed to `time.Date`. -/
structure Reader where
  fileType : Nat
  lastUpdate : Nat × Nat × Nat
  recordsCount : Nat
  headerBytesNumber : Nat
  recordBytesNumber : Nat
  fieldsCount : Nat
  fields : List Field
  decoder : Option Decoder
  stream : List Nat
  currentRecord : Nat
  err : Option GoError

/-- The zero-valued reader `New` starts from, wrapping the input stream. -/
def emptyReader (input : List Nat) : Reader :=
  { fileType := 0
    lastUpdate := (0, 0, 0)
    recordsCount := 0
    headerBytesNumber := 0
    recordBytesNumber := 0
    fieldsCount := 0
    fields := []
    decoder := none
    stream := input
    currentRecord := 0
    err := none }

/-- `Reader.Fields` accessor. -/
def Reader.Fields (r : Reader) : List Field :=
  r.fields

/-- `Reader.FieldsCount` accessor: `len(r.fields)`. -/
def Reader.FieldsCount (r : Reader) : Nat :=
  r.fields.length

/-- `Reader.RecordsCount` accessor. -/
def Reader.RecordsCount (r : Reader) : Nat :=
  r.recordsCount

/-! ## Header parsing -/

/-- The twelve recognized file-type tags (`isValidFileType`'s switch). -/
def validFileTypes : List Nat :=
  [0x02, 0x03, 0x30, 0x31, 0x32, 0x43, 0x63, 0x83, 0x8B, 0xCB, 0xF5, 0xE5]

/-- `isValidFileType`. -/
def isValidFileType (ft : Nat) : Bool :=
  validFileTypes.contains ft

/-- `getDecoderByLDID`: the fixed Language-Driver-ID lookup table. -/
def getDecoderByLDID (ldid : Nat) : Option Decoder :=
  if ldid = 0x26 then some .cp866
  else if ldid = 0x64 ∨ ldid = 0x65 ∨ ldid = 0xC9 then some .cp1251
  else if ldid = 0x03 then some .cp1252
  else if ldid = 0x01 then some .cp437
  else if ldid = 0x02 then some .cp850
  else none

/-- The field-count derivation `(r.headerBytesNumber - metadataLength) / fieldLength`
performed in `uint16` arithmetic: the subtraction wraps modulo 2^16.
For `h < 2^16` this is exactly Go's `(h - 32) / 32` on `uint16`. -/
def fieldsCountCalc (h : Nat) : Nat :=
  ((h + 65536 - 32) % 65536) / 32

/-- `Reader.readMetadata`: parse the 32-byte header, mutating `r`. -/
def readMetadata (r : Reader) : Except GoError Reader :=
  match readByte r.stream with
  | .error _ => .error (.wrap .readFileType .eof)
  | .ok (b, s1) =>
    if !isValidFileType b then .error (.unknownFileType b)
    else
      match readFull 3 s1 with
      | .error e => .error (.wrap .readLastUpdateDate e)
      | .ok (dateBytes, s2) =>
        match readFull 4 s2 with
        | .error e => .error (.wrap .readRecordsCount e)
        | .ok (recordsBytes, s3) =>
          match readFull 2 s3 with
          | .error e => .error (.wrap .readHeaderSize e)
          | .ok (headerBytes, s4) =>
            match readFull 2 s4 with
            | .error e => .error (.wrap .readRecordSize e)
            | .ok (recordBytes, s5) =>
              match readFull 20 s5 with
              | .error e => .error (.wrap .readReservedBytes e)
              | .ok (reserved, s6) =>
                let headerBytesNumber := le16 (headerBytes.getD 0 0) (headerBytes.getD 1 0)
                let languageDriverID := reserved.getD 17 0
                .ok { r with
                  fileType := b
                  lastUpdate :=
                    (dateBytes.getD 0 0 + 1900, dateBytes.getD 1 0, dateBytes.getD 2 0)
                  recordsCount :=
                    le32 (recordsBytes.getD 0 0) (recordsBytes.getD 1 0)
                      (recordsBytes.getD 2 0) (recordsBytes.getD 3 0)
                  headerBytesNumber := headerBytesNumber
                  fieldsCount := fieldsCountCalc headerBytesNumber
                  recordBytesNumber := le16 (recordBytes.getD 0 0) (recordBytes.getD 1 0)
                  decoder :=
                    match r.decoder with
                    | none => getDecoderByLDID languageDriverID
                    | some d => some d
                  stream := s6 }

/-! ## Schema parsing -/

/-- `Reader.readField`: one 32-byte field descriptor.  A name that fails to
transcode falls back to the raw null-trimmed bytes. -/
def readField (d : Decoder) (s : List Nat) : Except GoError (Field × List Nat) :=
  match readFull 32 s with
  | .error e => .error (.wrap .readFieldBytes e)
  | .ok (fieldBytes, s1) =>
    let nameBytes := trimRightNulls (fieldBytes.take 11)
    let decodedName :=
      match d.bytes nameBytes with
      | none => nameBytes
      | some dn => dn
    .ok ({ Name := decodedName
           Typ := fieldBytes.getD 11 0
           MemoryAddress :=
             le32 (fieldBytes.getD 12 0) (fieldBytes.getD 13 0)
               (fieldBytes.getD 14 0) (fieldBytes.getD 15 0)
           Length := fieldBytes.getD 16 0
           DecimalCount := fieldBytes.getD 17 0 }, s1)

/-- The `for i := 0; i < fieldsCount; i++` loop body of `readFields`:
read `n` descriptors starting at loop index `i`. -/
def readFieldsLoop (d : Decoder) (i : Nat) : Nat → List Nat → Except GoError (List Field × List Nat)
  | 0, s => .ok ([], s)
  | n + 1, s =>
    match readField d s with
    | .error e => .error (.readFieldAt i e)
    | .ok (f, s1) =>
      match readFieldsLoop d (i + 1) n s1 with
      | .error e => .error e
      | .ok (fs, s2) => .ok (f :: fs, s2)

/-- `Reader.readFields`: all descriptors, then the 0x0D terminator byte. -/
def readFields (d : Decoder) (r : Reader) : Except GoError Reader :=
  match readFieldsLoop d 0 r.fieldsCount r.stream with
  | .error e => .error e
  | .ok (fs, s1) =>
    match readByte s1 with
    | .error _ => .error (.wrap .readTerminator .eof)
    | .ok (terminator, s2) =>
      if terminator ≠ 0x0D then .error (.invalidTerminator terminator)
      else .ok { r with fields := fs, stream := s2 }

/-! ## Construction -/

/-- `dbf.Option`: a functional option mutating the reader under construction. -/
def DbfOption := Reader → Reader

/-- `WithDecoder`. -/
def WithDecoder (d : Decoder) : DbfOption :=
  fun r => { r with decoder := some d }

/-- `WithEncoding` (the `cm.NewDecoder()` wrapper collapses to the decoder value). -/
def WithEncoding (cm : Decoder) : DbfOption :=
  WithDecoder cm

/-- `WithCP866`. -/
def WithCP866 : DbfOption :=
  WithEncoding .cp866

/-- `WithCP1251`. -/
def WithCP1251 : DbfOption :=
  WithEncoding .cp1251

/-- `WithCP1252`. -/
def WithCP1252 : DbfOption :=
  WithEncoding .cp1252

/-- The message of the encoding-undetermined construction error. -/
def encodingErrorMessage : String :=
  "unable to determine encoding: please specify encoding explicitly using WithCP866(), WithCP1251() or WithEncoding()"

/-- `dbf.New`: apply options, read metadata, require a decoder, read fields. -/
def New (input : List Nat) (opts : List DbfOption) : Except GoError Reader :=
  let reader := opts.foldl (fun r opt => opt r) (emptyReader input)
  match readMetadata reader with
  | .error e => .error (.wrap .readMetadataStep e)
  | .ok r1 =>
    match r1.decoder with
    | none => .error (.encodingUndetermined encodingErrorMessage)
    | some d =>
      match readFields d r1 with
      | .error e => .error (.wrap .readFieldsStep e)
      | .ok r2 => .ok r2

/-! ## Record decoding -/

/-- The literal bytes of the Go strings `"true"` and `"false"`. -/
def trueBytes : List Nat := [116, 114, 117, 101]

def falseBytes : List Nat := [102, 97, 108, 115, 101]

/-- `Reader.decodeFieldValue`: type-directed decoding of one field's raw
bytes.  Character codes: C=67, N=78, F=70, D=68, L=76, M=77. -/
def decodeFieldValue (d : Decoder) (field : Field) (data : List Nat) :
    List Nat × Option GoError :=
  let trimmed := trimSpace data
  if field.Typ = 67 then
    match d.bytes trimmed with
    | none => (trimmed, none)
    | some decoded => (decoded, none)
  else if field.Typ = 78 ∨ field.Typ = 70 then
    (trimmed, none)
  else if field.Typ = 68 then
    (trimmed, none)
  else if field.Typ = 76 then
    match (trimSpace data).head? with
    | some b =>
      if b = 84 ∨ b = 116 ∨ b = 89 ∨ b = 121 then (trueBytes, none)
      else if b = 70 ∨ b = 102 ∨ b = 78 ∨ b = 110 then (falseBytes, none)
      else ([], none)
    | none => ([], none)
  else if field.Typ = 77 then
    (trimmed, none)
  else
    match d.bytes trimmed with
    | none => (trimmed, none)
    | some decoded => (decoded, none)

/-- Outcome of the field-slicing loop in `Read`: success, a latched decode
error, or a Go slice-bounds panic. -/
inductive FieldsResult where
  | ok (ps : List (List Nat × List Nat))
  | err (e : GoError)
  | panicked

/-- The `for _, field := range r.fields` loop of `Read`:
`recordBytes[offset : offset+field.Length]` panics when the upper bound
exceeds the buffer length; otherwise the slice is decoded and assigned. -/
def sliceFields (d : Decoder) (fields : List Field) (buf : List Nat) (offset : Nat) :
    FieldsResult :=
  match fields with
  | [] => .ok []
  | f :: rest =>
    if offset + f.Length ≤ buf.length then
      match decodeFieldValue d f ((buf.drop offset).take f.Length) with
      | (_, some e) => .err (.decodeField f.Name e)
      | (value, none) =>
        match sliceFields d rest buf (offset + f.Length) with
        | .ok ps => .ok ((f.Name, value) :: ps)
        | .err e => .err e
        | .panicked => .panicked
    else .panicked

/-- Outcome of one `Read` call. -/
inductive ROutcome (α : Type) where
  | ok (a : α)
  | err (e : GoError)
  | panicked

/-- The body of `Reader.Read` past the sticky-error check: returns the
outcome, the remaining stream, and the new sticky-error value.
`recordBytes[0]` panics when the declared record length is zero. -/
def readCore (d : Decoder) (fields : List Field) (rbn : Nat) (s : List Nat) :
    ROutcome Record × List Nat × Option GoError :=
  match readFull rbn s with
  | .error e =>
    (.err (.wrap .readRecordBytes e), s.drop rbn, some (.wrap .readRecordBytes e))
  | .ok (recordBytes, s1) =>
    match recordBytes with
    | [] => (.panicked, s1, none)
    | b0 :: _ =>
      match sliceFields d fields recordBytes 1 with
      | .panicked => (.panicked, s1, none)
      | .err e => (.err e, s1, some e)
      | .ok ps => (.ok { Deleted := b0 == 0x2A, Data := ps }, s1, none)

/-- `Reader.Read`: sticky-error short-circuit, then read and decode one
record.  A reader with no decoder (impossible via `New`) is modelled as the
panic outcome. -/
def Reader.Read (r : Reader) : ROutcome Record × Reader :=
  match r.err with
  | some e => (.err e, r)
  | none =>
    match r.decoder with
    | none => (.panicked, r)
    | some d =>
      match readCore d r.fields r.recordBytesNumber r.stream with
      | (o, s1, e1) => (o, { r with stream := s1, err := e1 })

/-- `Reader.Next`: cursor-bounded advance; reports a record available only
when no sticky error is latched. -/
def Reader.Next (r : Reader) : Bool × Reader :=
  if r.currentRecord ≥ r.recordsCount then (false, r)
  else (r.err.isNone, { r with currentRecord := r.currentRecord + 1 })

/-- `Reader.Err`: the sticky error, except that the bare `io.EOF` sentinel
reports success. -/
def Reader.Err (r : Reader) : Option GoError :=
  if r.err = some .eof then none else r.err

/-! ## Concrete inputs

`sampleDBF` is the minimal well-formed file from the repository's test
builder: FoxBASE+ tag, 2 records, one Character field `NAME` of length 10,
locale id 0x26, one active and one deleted record.  `sampleReader` is the
reader state right after `New` succeeds on it. -/

def sampleDBF : List Nat :=
  [0x03, 124, 1, 15,
   2, 0, 0, 0,
   65, 0,
   11, 0] ++ List.replicate 17 0 ++ [0x26, 0, 0] ++
  [78, 65, 77, 69, 0, 0, 0, 0, 0, 0, 0,
   67,
   0, 0, 0, 0,
   10,
   0] ++ List.replicate 14 0 ++
  [13] ++
  [32, 74, 111, 104, 110, 32, 68, 111, 101, 32, 32] ++
  [42, 74, 97, 110, 101, 32, 83, 109, 105, 116, 104]

def sampleReader : Reader :=
  { fileType := 3
    lastUpdate := (2024, 1, 15)
    recordsCount := 2
    headerBytesNumber := 65
    recordBytesNumber := 11
    fieldsCount := 1
    fields := [{ Name := [78, 65, 77, 69], Typ := 67, MemoryAddress := 0,
                 Length := 10, DecimalCount := 0 }]
    decoder := some .cp866
    stream := [32, 74, 111, 104, 110, 32, 68, 111, 101, 32, 32,
               42, 74, 97, 110, 101, 32, 83, 109, 105, 116, 104]
    currentRecord := 0
    err := none }

/-- The sample reader with a sticky error already latched. -/
def stuckReader : Reader :=
  { sampleReader with err := some .eof }

/-- The sample reader with its body truncated mid-record. -/
def truncReader : Reader :=
  { sampleReader with stream := [32, 65] }

/-- A header-only input whose locale id 0xFF is not in the lookup table. -/
def badLdidDBF : List Nat :=
  [0x03, 124, 1, 15, 2, 0, 0, 0, 65, 0, 11, 0] ++
    List.replicate 17 0 ++ [0xFF, 0, 0]

/-- A 32-byte header whose declared header length is zero. -/
def zeroHeaderDBF : List Nat :=
  [0x03] ++ List.replicate 31 0

/-- A custom decoder that fails on every input. -/
def failingDecoder : Decoder :=
  .custom (fun _ => none)

/-- A Character-typed field of width 2 (for decode witnesses). -/
def cField : Field :=
  { Name := [67], Typ := 67, MemoryAddress := 0, Length := 2, DecimalCount := 0 }

/-- A Logical-typed field of width 1 (for decode witnesses). -/
def lField : Field :=
  { Name := [76], Typ := 76, MemoryAddress := 0, Length := 1, DecimalCount := 0 }

/-- A positive `Next` means the cursor was below the record count and has
been incremented (needed to justify termination of the iteration loops). -/
theorem Next_true (r r1 : Reader) (h : r.Next = (true, r1)) :
    r.currentRecord < r.recordsCount ∧
      r1 = { r with currentRecord := r.currentRecord + 1 } := by
  unfold Reader.Next at h
  split at h
  · exact absurd (congrArg Prod.fst h) (by simp)
  · rename_i hlt
    simp only [Prod.mk.injEq] at h
    exact ⟨by omega, h.2.symm⟩

/-- `Read` never touches the cursor, the counts, the schema or the decoder. -/
theorem Read_preserves (r : Reader) :
    ((r.Read).2).currentRecord = r.currentRecord ∧
      ((r.Read).2).recordsCount = r.recordsCount ∧
      ((r.Read).2).fields = r.fields ∧
      ((r.Read).2).recordBytesNumber = r.recordBytesNumber ∧
      ((r.Read).2).decoder = r.decoder := by
  unfold Reader.Read
  cases hE : r.err with
  | some e => simp
  | none =>
    cases hD : r.decoder with
    | none => simp [hD]
    | some d =>
      rcases hC : readCore d r.fields r.recordBytesNumber r.stream with ⟨o, s1, e1⟩
      simp [hC]

/-- Result of `ReadAll`: the records collected so far, with the error (or
panic) that stopped collection when one did. -/
inductive AllResult where
  | ok (recs : List Record)
  | err (recs : List Record) (e : GoError)
  | panicked (recs : List Record)

/-- The `for r.Next()` loop of `ReadAll`: fetch records until `Next` says
stop, keep partial results on error, and consult `Err` at the end. -/
def readAllLoop (r : Reader) : AllResult × Reader :=
  match hn : r.Next with
  | (false, r1) =>
    match r1.Err with
    | some e => (.err [] e, r1)
    | none => (.ok [], r1)
  | (true, r1) =>
    match hr : r1.Read with
    | (.ok rec, r2) =>
      match readAllLoop r2 with
      | (.ok recs, r3) => (.ok (rec :: recs), r3)
      | (.err recs e, r3) => (.err (rec :: recs) e, r3)
      | (.panicked recs, r3) => (.panicked (rec :: recs), r3)
    | (.err e, r2) => (.err [] e, r2)
    | (.panicked, r2) => (.panicked [], r2)
termination_by r.recordsCount - r.currentRecord
decreasing_by
  obtain ⟨hlt, hr1⟩ := Next_true r r1 hn
  have hp := Read_preserves r1
  rw [hr] at hp
  subst hr1
  simp at hp
  omega

/-- `Reader.ReadAll`. -/
def Reader.ReadAll (r : Reader) : AllResult × Reader :=
  readAllLoop r

/-- The documented streaming access pattern (`for reader.Next()` with a
`reader.Read()` body, stopping on the first failed read): returns the
number of successful `Next`/`Read` iterations and the final reader state. -/
def streamLoop (r : Reader) : Nat × Reader :=
  match hn : r.Next with
  | (false, r1) => (0, r1)
  | (true, r1) =>
    match hr : r1.Read with
    | (.ok _, r2) =>
      match streamLoop r2 with
      | (n, r3) => (n + 1, r3)
    | (.err _, r2) => (0, r2)
    | (.panicked, r2) => (0, r2)
termination_by r.recordsCount - r.currentRecord
decreasing_by
  obtain ⟨hlt, hr1⟩ := Next_true r r1 hn
  have hp := Read_preserves r1
  rw [hr] at hp
  subst hr1
  simp at hp
  omega

/-! ## Supporting lemmas -/

theorem getD_drop (s : List Nat) (n i : Nat) :
    (s.drop n).getD i 0 = s.getD (n + i) 0 := by
  simp [List.getD_eq_getElem?_getD, List.getElem?_drop]

theorem getD_take (s : List Nat) (k i : Nat) (h : i < k) :
    (s.take k).getD i 0 = s.getD i 0 := by
  simp [List.getD_eq_getElem?_getD, List.getElem?_take_of_lt h]

theorem readFull_ok {n : Nat} {s bs s' : List Nat}
    (h : readFull n s = .ok (bs, s')) :
    bs = s.take n ∧ s' = s.drop n ∧ n ≤ s.length := by
  unfold readFull at h
  split at h
  · rename_i hle
    simp only [Except.ok.injEq, Prod.mk.injEq] at h
    exact ⟨h.1.symm, h.2.symm, hle⟩
  · split at h <;> simp at h

theorem readFull_short {n : Nat} {s : List Nat} (h : s.length < n) :
    readFull n s = .error (if s.isEmpty then GoError.eof else .unexpectedEOF) := by
  unfold readFull
  rw [if_neg (by omega)]
  split <;> simp_all

/-- `decodeFieldValue` never reports an error, whatever the type tag, the
decoder, or the bytes: every branch of the switch returns a nil error. -/
theorem decodeFieldValue_snd (d : Decoder) (f : Field) (data : List Nat) :
    (decodeFieldValue d f data).2 = none := by
  simp only [decodeFieldValue]
  repeat' split
  all_goals rfl

/-- When the schema's declared widths fit inside the record buffer, the
slicing loop of `Read` succeeds: no slice is out of bounds and no decode
error occurs. -/
theorem sliceFields_ok (d : Decoder) (fields : List Field) (buf : List Nat)
    (offset : Nat) (h : offset + fieldsSpan fields ≤ buf.length) :
    ∃ ps, sliceFields d fields buf offset = .ok ps := by
  induction fields generalizing offset with
  | nil => exact ⟨[], rfl⟩
  | cons f rest ih =>
    have hspan : fieldsSpan (f :: rest) = f.Length + fieldsSpan rest := by
      simp [fieldsSpan]
    have h1 : offset + f.Length ≤ buf.length := by omega
    obtain ⟨ps, hps⟩ := ih (offset + f.Length) (by omega)
    have hsnd := decodeFieldValue_snd d f ((buf.drop offset).take f.Length)
    rcases hdv : decodeFieldValue d f ((buf.drop offset).take f.Length) with ⟨v, e⟩
    rw [hdv] at hsnd
    simp only at hsnd
    subst hsnd
    refine ⟨(f.Name, v) :: ps, ?_⟩
    unfold sliceFields
    rw [if_pos h1, hdv, hps]

/-- Sticky-error short-circuit of `Read`: the latched error is returned and
the reader state is completely untouched. -/
theorem Read_sticky (r : Reader) (e : GoError) (he : r.err = some e) :
    r.Read = (.err e, r) := by
  unfold Reader.Read
  rw [he]

/-- With no sticky error, a decoder present, the schema consistent with the
declared record length, and at least one full record buffered, `Read`
succeeds and consumes exactly `recordBytesNumber` bytes. -/
theorem Read_success (r : Reader) (d : Decoder) (hd : r.decoder = some d)
    (he : r.err = none) (hs : 1 + fieldsSpan r.fields ≤ r.recordBytesNumber)
    (hl : r.recordBytesNumber ≤ r.stream.length) :
    ∃ rec, r.Read =
      (.ok rec, { r with stream := r.stream.drop r.recordBytesNumber, err := none }) := by
  have hfull : readFull r.recordBytesNumber r.stream =
      .ok (r.stream.take r.recordBytesNumber, r.stream.drop r.recordBytesNumber) := by
    unfold readFull
    rw [if_pos hl]
  have hlen : (r.stream.take r.recordBytesNumber).length = r.recordBytesNumber := by
    rw [List.length_take]
    omega
  cases htk : r.stream.take r.recordBytesNumber with
  | nil =>
    rw [htk] at hlen
    simp at hlen
    omega
  | cons b0 rest =>
    have hbuf : (1 : Nat) + fieldsSpan r.fields ≤ (b0 :: rest).length := by
      rw [← htk, hlen]
      exact hs
    obtain ⟨ps, hps⟩ := sliceFields_ok d r.fields (b0 :: rest) 1 hbuf
    refine ⟨{ Deleted := b0 == 0x2A, Data := ps }, ?_⟩
    unfold Reader.Read
    rw [he, hd]
    unfold readCore
    rw [hfull, htk]
    dsimp only
    rw [hps]

/-- Invariant preservation for the `ReadAll` loop: with a consistent schema
and `k` full records still buffered, the loop collects exactly `k` more
records and finishes with no sticky error. -/
theorem readAllLoop_inv (k : Nat) :
    ∀ (r : Reader) (d : Decoder), r.decoder = some d → r.err = none →
      r.recordsCount - r.currentRecord = k →
      1 + fieldsSpan r.fields ≤ r.recordBytesNumber →
      k * r.recordBytesNumber ≤ r.stream.length →
      ∃ recs r', readAllLoop r = (.ok recs, r') ∧ recs.length = k ∧ r'.err = none := by
  induction k with
  | zero =>
    intro r d hd he hk hs hl
    have hge : r.recordsCount ≤ r.currentRecord := by omega
    have hnext : r.Next = (false, r) := by
      unfold Reader.Next
      rw [if_pos hge]
    have herr : r.Err = none := by
      unfold Reader.Err
      rw [he]
      simp
    refine ⟨[], r, ?_, rfl, he⟩
    rw [readAllLoop]
    split
    · rename_i r1 heq
      rw [hnext] at heq
      injection heq with h1 h2
      subst h2
      rw [herr]
    · rename_i r1 heq
      rw [hnext] at heq
      simp at heq
  | succ k ih =>
    intro r d hd he hk hs hl
    have hlt : r.currentRecord < r.recordsCount := by omega
    have hnext : r.Next = (true, { r with currentRecord := r.currentRecord + 1 }) := by
      unfold Reader.Next
      rw [if_neg (by omega), he]
      rfl
    have hmul : (k + 1) * r.recordBytesNumber
        = k * r.recordBytesNumber + r.recordBytesNumber := by ring
    have hl1 : r.recordBytesNumber ≤ r.stream.length := by omega
    obtain ⟨rec, hread⟩ :=
      Read_success { r with currentRecord := r.currentRecord + 1 } d hd he hs hl1
    have hreadflat : ({ r with currentRecord := r.currentRecord + 1 } : Reader).Read =
        (.ok rec, { r with currentRecord := r.currentRecord + 1,
                           stream := r.stream.drop r.recordBytesNumber, err := none }) :=
      hread
    obtain ⟨recs, r', hloop, hlen, herr'⟩ := ih
      { r with currentRecord := r.currentRecord + 1,
               stream := r.stream.drop r.recordBytesNumber, err := none } d hd rfl
      (by show r.recordsCount - (r.currentRecord + 1) = k; omega)
      hs
      (by show k * r.recordBytesNumber ≤ (r.stream.drop r.recordBytesNumber).length
          rw [List.length_drop]
          omega)
    refine ⟨rec :: recs, r', ?_, by simp [hlen], herr'⟩
    rw [readAllLoop]
    split
    · rename_i r1 heq
      rw [hnext] at heq
      simp at heq
    · rename_i r1 heq
      rw [hnext] at heq
      injection heq with hb hr1
      subst hr1
      split
      · rename_i rec0 r2x heqr
        rw [hreadflat] at heqr
        injection heqr with ho hr2x
        injection ho with hrec
        subst hrec
        subst hr2x
        rw [hloop]
      · rename_i e0 r2x heqr
        rw [hreadflat] at heqr
        simp at heqr
      · rename_i r2x heqr
        rw [hreadflat] at heqr
        simp at heqr

/-- Invariant preservation for the streaming loop: with a consistent schema
and `k` full records still buffered, the stream pattern performs exactly
`k` successful iterations and finishes with no sticky error. -/
theorem streamLoop_inv (k : Nat) :
    ∀ (r : Reader) (d : Decoder), r.decoder = some d → r.err = none →
      r.recordsCount - r.currentRecord = k →
      1 + fieldsSpan r.fields ≤ r.recordBytesNumber →
      k * r.recordBytesNumber ≤ r.stream.length →
      ∃ r', streamLoop r = (k, r') ∧ r'.err = none := by
  induction k with
  | zero =>
    intro r d hd he hk hs hl
    have hge : r.recordsCount ≤ r.currentRecord := by omega
    have hnext : r.Next = (false, r) := by
      unfold Reader.Next
      rw [if_pos hge]
    refine ⟨r, ?_, he⟩
    rw [streamLoop]
    split
    · rename_i r1 heq
      rw [hnext] at heq
      injection heq with h1 h2
      subst h2
      rfl
    · rename_i r1 heq
      rw [hnext] at heq
      simp at heq
  | succ k ih =>
    intro r d hd he hk hs hl
    have hlt : r.currentRecord < r.recordsCount := by omega
    have hnext : r.Next = (true, { r with currentRecord := r.currentRecord + 1 }) := by
      unfold Reader.Next
      rw [if_neg (by omega), he]
      rfl
    have hmul : (k + 1) * r.recordBytesNumber
        = k * r.recordBytesNumber + r.recordBytesNumber := by ring
    have hl1 : r.recordBytesNumber ≤ r.stream.length := by omega
    obtain ⟨rec, hread⟩ :=
      Read_success { r with currentRecord := r.currentRecord + 1 } d hd he hs hl1
    have hreadflat : ({ r with currentRecord := r.currentRecord + 1 } : Reader).Read =
        (.ok rec, { r with currentRecord := r.currentRecord + 1,
                           stream := r.stream.drop r.recordBytesNumber, err := none }) :=
      hread
    obtain ⟨r', hloop, herr'⟩ := ih
      { r with currentRecord := r.currentRecord + 1,
               stream := r.stream.drop r.recordBytesNumber, err := none } d hd rfl
      (by show r.recordsCount - (r.currentRecord + 1) = k; omega)
      hs
      (by show k * r.recordBytesNumber ≤ (r.stream.drop r.recordBytesNumber).length
          rw [List.length_drop]
          omega)
    refine ⟨r', ?_, herr'⟩
    rw [streamLoop]
    split
    · rename_i r1 heq
      rw [hnext] at heq
      simp at heq
    · rename_i r1 heq
      rw [hnext] at heq
      injection heq with hb hr1
      subst hr1
      split
      · rename_i rec0 r2x heqr
        rw [hreadflat] at heqr
        injection heqr with ho hr2x
        injection ho with hrec
        subst hr2x
        rw [hloop]
      · rename_i e0 r2x heqr
        rw [hreadflat] at heqr
        simp at heqr
      · rename_i r2x heqr
        rw [hreadflat] at heqr
        simp at heqr

/-- A successful `readField` consumed exactly 32 bytes. -/
theorem readField_ok {d : Decoder} {s : List Nat} {f : Field} {s' : List Nat}
    (h : readField d s = .ok (f, s')) :
    s' = s.drop 32 ∧ 32 ≤ s.length := by
  unfold readField at h
  cases hF : readFull 32 s with
  | error e =>
    rw [hF] at h
    simp at h
  | ok p =>
    obtain ⟨fb, s1⟩ := p
    obtain ⟨hfb, hs1, hlen⟩ := readFull_ok hF
    rw [hF] at h
    simp only [Except.ok.injEq, Prod.mk.injEq] at h
    refine ⟨?_, hlen⟩
    rw [← h.2, hs1]

/-- A successful descriptor loop read exactly `n` descriptors of 32 bytes each. -/
theorem readFieldsLoop_ok {d : Decoder} :
    ∀ {n i : Nat} {s : List Nat} {fs : List Field} {s' : List Nat},
      readFieldsLoop d i n s = .ok (fs, s') →
      fs.length = n ∧ s' = s.drop (32 * n) ∧ 32 * n ≤ s.length := by
  intro n
  induction n with
  | zero =>
    intro i s fs s' h
    unfold readFieldsLoop at h
    simp only [Except.ok.injEq, Prod.mk.injEq] at h
    obtain ⟨h1, h2⟩ := h
    subst h1
    subst h2
    simp
  | succ n ih =>
    intro i s fs s' h
    unfold readFieldsLoop at h
    cases hF : readField d s with
    | error e =>
      rw [hF] at h
      simp at h
    | ok p =>
      obtain ⟨f, s1⟩ := p
      rw [hF] at h
      dsimp only at h
      obtain ⟨hs1, hslen⟩ := readField_ok hF
      cases hL : readFieldsLoop d (i + 1) n s1 with
      | error e =>
        rw [hL] at h
        simp at h
      | ok q =>
        obtain ⟨fs0, s2⟩ := q
        rw [hL] at h
        simp only [Except.ok.injEq, Prod.mk.injEq] at h
        obtain ⟨hfs, hs'⟩ := h
        obtain ⟨hlen0, hs2, hbound⟩ := ih hL
        subst hfs
        subst hs'
        subst hs1
        have harith : 32 * n + 32 = 32 * (n + 1) := by ring
        refine ⟨by simp [hlen0], ?_, ?_⟩
        · rw [hs2, List.drop_drop]
          congr 1
          ring
        · rw [List.length_drop] at hbound
          omega

/-- A successful `readFields` parsed exactly `fieldsCount` descriptors, saw
the 0x0D terminator right after them, and touched no other reader state. -/
theorem readFields_ok {d : Decoder} {r r' : Reader} (h : readFields d r = .ok r') :
    r'.fields.length = r.fieldsCount ∧
      r.stream[32 * r.fieldsCount]? = some 13 ∧
      r'.stream = r.stream.drop (32 * r.fieldsCount + 1) ∧
      r'.fieldsCount = r.fieldsCount ∧
      r'.headerBytesNumber = r.headerBytesNumber ∧
      r'.recordsCount = r.recordsCount ∧
      r'.recordBytesNumber = r.recordBytesNumber ∧
      r'.decoder = r.decoder ∧
      r'.err = r.err ∧
      r'.currentRecord = r.currentRecord := by
  unfold readFields at h
  cases hL : readFieldsLoop d 0 r.fieldsCount r.stream with
  | error e =>
    rw [hL] at h
    simp at h
  | ok p =>
    obtain ⟨fs, s1⟩ := p
    rw [hL] at h
    dsimp only at h
    obtain ⟨hflen, hs1, hbound⟩ := readFieldsLoop_ok hL
    cases hsh : s1 with
    | nil =>
      rw [hsh] at h
      simp [readByte] at h
    | cons t s2 =>
      rw [hsh] at h
      simp only [readByte] at h
      split at h
      · simp at h
      · rename_i ht
        have ht13 : t = 13 := by omega
        simp only [Except.ok.injEq] at h
        subst h
        have hhead : r.stream[32 * r.fieldsCount]? = some t := by
          rw [← List.head?_drop, ← hs1, hsh]
          rfl
        refine ⟨hflen, by rw [hhead, ht13], ?_, rfl, rfl, rfl, rfl, rfl, rfl, rfl⟩
        show s2 = r.stream.drop (32 * r.fieldsCount + 1)
        rw [← List.tail_drop, ← hs1, hsh]
        rfl

/-- A successful `readMetadata` consumed exactly the 32 header bytes and
populated the reader fields from the documented offsets. -/
theorem readMetadata_ok {r r' : Reader} (h : readMetadata r = .ok r') :
    32 ≤ r.stream.length ∧
      r'.stream = r.stream.drop 32 ∧
      r'.headerBytesNumber = le16 (r.stream.getD 8 0) (r.stream.getD 9 0) ∧
      r'.fieldsCount = fieldsCountCalc r'.headerBytesNumber ∧
      r'.recordsCount = le32 (r.stream.getD 4 0) (r.stream.getD 5 0)
        (r.stream.getD 6 0) (r.stream.getD 7 0) ∧
      r'.recordBytesNumber = le16 (r.stream.getD 10 0) (r.stream.getD 11 0) ∧
      r'.decoder = (match r.decoder with
        | none => getDecoderByLDID (r.stream.getD 29 0)
        | some d => some d) ∧
      r'.fields = r.fields ∧
      r'.err = r.err ∧
      r'.currentRecord = r.currentRecord := by
  unfold readMetadata at h
  cases hS : r.stream with
  | nil =>
    rw [hS] at h
    simp [readByte] at h
  | cons b s1 =>
    rw [hS] at h
    simp only [readByte] at h
    split at h
    · simp at h
    · have hs1' : s1 = r.stream.drop 1 := by
        rw [hS]
        rfl
      cases hF1 : readFull 3 s1 with
      | error e =>
        rw [hF1] at h
        simp at h
      | ok p1 =>
        obtain ⟨dateBytes, s2⟩ := p1
        rw [hF1] at h
        dsimp only at h
        obtain ⟨hdb, hs2, hl1⟩ := readFull_ok hF1
        have hs2' : s2 = r.stream.drop 4 := by
          rw [hs2, hs1', List.drop_drop]
        cases hF2 : readFull 4 s2 with
        | error e =>
          rw [hF2] at h
          simp at h
        | ok p2 =>
          obtain ⟨recordsBytes, s3⟩ := p2
          rw [hF2] at h
          dsimp only at h
          obtain ⟨hrcb, hs3, hl2⟩ := readFull_ok hF2
          have hs3' : s3 = r.stream.drop 8 := by
            rw [hs3, hs2', List.drop_drop]
          cases hF3 : readFull 2 s3 with
          | error e =>
            rw [hF3] at h
            simp at h
          | ok p3 =>
            obtain ⟨headerBytes, s4⟩ := p3
            rw [hF3] at h
            dsimp only at h
            obtain ⟨hhb, hs4, hl3⟩ := readFull_ok hF3
            have hs4' : s4 = r.stream.drop 10 := by
              rw [hs4, hs3', List.drop_drop]
            cases hF4 : readFull 2 s4 with
            | error e =>
              rw [hF4] at h
              simp at h
            | ok p4 =>
              obtain ⟨recordBytes, s5⟩ := p4
              rw [hF4] at h
              dsimp only at h
              obtain ⟨hrb, hs5, hl4⟩ := readFull_ok hF4
              have hs5' : s5 = r.stream.drop 12 := by
                rw [hs5, hs4', List.drop_drop]
              cases hF5 : readFull 20 s5 with
              | error e =>
                rw [hF5] at h
                simp at h
              | ok p5 =>
                obtain ⟨reserved, s6⟩ := p5
                rw [hF5] at h
                dsimp only at h
                obtain ⟨hrsv, hs6, hl5⟩ := readFull_ok hF5
                have hs6' : s6 = r.stream.drop 32 := by
                  rw [hs6, hs5', List.drop_drop]
                have h32 : 32 ≤ r.stream.length := by
                  rw [hs5', List.length_drop] at hl5
                  omega
                simp only [Except.ok.injEq] at h
                subst h
                rw [← hS]
                refine ⟨h32, hs6', ?_, rfl, ?_, ?_, ?_, rfl, rfl, rfl⟩
                · show le16 (headerBytes.getD 0 0) (headerBytes.getD 1 0) = _
                  rw [hhb, hs3', getD_take _ _ _ (by norm_num),
                    getD_take _ _ _ (by norm_num), getD_drop, getD_drop]
                · show le32 (recordsBytes.getD 0 0) (recordsBytes.getD 1 0)
                    (recordsBytes.getD 2 0) (recordsBytes.getD 3 0) = _
                  rw [hrcb, hs2', getD_take _ _ _ (by norm_num),
                    getD_take _ _ _ (by norm_num), getD_take _ _ _ (by norm_num),
                    getD_take _ _ _ (by norm_num), getD_drop, getD_drop,
                    getD_drop, getD_drop]
                · show le16 (recordBytes.getD 0 0) (recordBytes.getD 1 0) = _
                  rw [hrb, hs4', getD_take _ _ _ (by norm_num),
                    getD_take _ _ _ (by norm_num), getD_drop, getD_drop]
                · show (match r.decoder with
                    | none => getDecoderByLDID (reserved.getD 17 0)
                    | some d => some d) = _
                  rw [hrsv, hs5', getD_take _ _ _ (by norm_num), getD_drop]

/-- Applying a list of `WithDecoder` options folds down to overwriting the
decoder with the last one supplied (last-wins), leaving all else intact. -/
theorem foldl_WithDecoder (ds : List Decoder) :
    ∀ r0 : Reader,
      (ds.map WithDecoder).foldl (fun r opt => opt r) r0 =
        { r0 with decoder := ds.foldl (fun _ x => some x) r0.decoder } := by
  induction ds with
  | nil =>
    intro r0
    cases r0
    rfl
  | cons d t ih =>
    intro r0
    simp only [List.map_cons, List.foldl_cons]
    rw [ih]
    rfl

/-- The decoder-overwrite fold returns the last decoder of the list. -/
theorem foldl_last (ds : List Decoder) :
    ∀ {d : Decoder}, ds.getLast? = some d →
      ∀ init : Option Decoder, ds.foldl (fun _ x => some x) init = some d := by
  induction ds with
  | nil =>
    intro d hd
    simp at hd
  | cons x t ih =>
    intro d hd init
    cases t with
    | nil =>
      simp at hd
      subst hd
      rfl
    | cons y u =>
      rw [List.getLast?_cons_cons] at hd
      simp only [List.foldl_cons]
      exact ih hd (some x)

/-- A list whose `take` starts with `b0` itself starts with `b0`. -/
theorem take_cons_head {s : List Nat} {n b0 : Nat} {rest : List Nat}
    (h : s.take n = b0 :: rest) : s.head? = some b0 := by
  cases s with
  | nil => simp at h
  | cons a t =>
    cases n with
    | zero => simp at h
    | succ m =>
      simp only [List.take_succ_cons, List.cons.injEq] at h
      rw [h.1]
      rfl

/-- A 16-bit little-endian value is below 2^16. -/
theorem le16_lt (b0 b1 : Nat) : le16 b0 b1 < 65536 := by
  unfold le16
  have h0 : b0 % 256 < 256 := Nat.mod_lt _ (by omega)
  have h1 : b1 % 256 < 256 := Nat.mod_lt _ (by omega)
  omega

/-- Successful construction decomposes into a metadata pass, a resolved
decoder, and a schema pass. -/
theorem New_ok_elim {input : List Nat} {opts : List DbfOption} {r : Reader}
    (h : New input opts = .ok r) :
    ∃ r1 d,
      readMetadata (opts.foldl (fun r0 opt => opt r0) (emptyReader input)) = .ok r1 ∧
        r1.decoder = some d ∧ readFields d r1 = .ok r := by
  unfold New at h
  dsimp only at h
  cases hm : readMetadata (opts.foldl (fun r0 opt => opt r0) (emptyReader input)) with
  | error e =>
    rw [hm] at h
    simp at h
  | ok r1 =>
    rw [hm] at h
    dsimp only at h
    cases hd1 : r1.decoder with
    | none =>
      rw [hd1] at h
      simp at h
    | some d =>
      rw [hd1] at h
      dsimp only at h
      cases hf : readFields d r1 with
      | error e =>
        rw [hf] at h
        simp at h
      | ok r2 =>
        rw [hf] at h
        simp only [Except.ok.injEq] at h
        subst h
        exact ⟨r1, d, rfl, hd1, hf⟩

/-- A reader produced by `New` (under the real option constructors) has no
sticky error, cursor zero, and a resolved decoder. -/
theorem New_ok_state {input : List Nat} {ds : List Decoder} {r : Reader}
    (h : New input (ds.map WithDecoder) = .ok r) :
    r.err = none ∧ r.currentRecord = 0 ∧ ∃ d, r.decoder = some d := by
  obtain ⟨r1, d, hm, hd1, hf⟩ := New_ok_elim h
  obtain ⟨-, -, -, -, -, -, -, -, herr1, hcur1⟩ := readMetadata_ok hm
  obtain ⟨-, -, -, -, -, -, -, hdec2, herr2, hcur2⟩ := readFields_ok hf
  rw [foldl_WithDecoder] at herr1 hcur1
  refine ⟨?_, ?_, d, ?_⟩
  · rw [herr2, herr1]
    simp [emptyReader]
  · rw [hcur2, hcur1]
    simp [emptyReader]
  · rw [hdec2, hd1]

/-! ## Claim theorems -/

/-- C1: for every well-formed input — `New` succeeds, the schema's declared
widths fit the declared record length, and the body holds `recordsCount`
full records — `ReadAll` returns exactly `recordsCount` records with no
error, and the streaming `Next`/`Read` pattern performs exactly
`recordsCount` successful iterations; in particular `recordsCount = 0`
yields an empty result and no error in both modes. -/
theorem C1_record_counts (input : List Nat) (ds : List Decoder) (r : Reader)
    (hnew : New input (ds.map WithDecoder) = .ok r)
    (hs : 1 + fieldsSpan r.fields ≤ r.recordBytesNumber)
    (hb : r.recordsCount * r.recordBytesNumber ≤ r.stream.length) :
    (∃ recs r', r.ReadAll = (.ok recs, r') ∧ recs.length = r.recordsCount ∧
        r'.Err = none) ∧
      (streamLoop r).1 = r.recordsCount := by
  obtain ⟨he, hc, d, hd⟩ := New_ok_state hnew
  have hk : r.recordsCount - r.currentRecord = r.recordsCount := by omega
  obtain ⟨recs, r', hloop, hlen, herr⟩ :=
    readAllLoop_inv r.recordsCount r d hd he hk hs hb
  obtain ⟨r2, hsl, -⟩ := streamLoop_inv r.recordsCount r d hd he hk hs hb
  refine ⟨⟨recs, r', hloop, hlen, ?_⟩, by rw [hsl]⟩
  unfold Reader.Err
  rw [herr]
  simp

/-- C1 witness: the sample file (2 records, one 10-byte Character field). -/
theorem C1_record_counts_witness :
    (∃ recs r', sampleReader.ReadAll = (.ok recs, r') ∧
        recs.length = sampleReader.recordsCount ∧ r'.Err = none) ∧
      (streamLoop sampleReader).1 = sampleReader.recordsCount :=
  C1_record_counts sampleDBF [] sampleReader rfl (by decide) (by decide)

/-- C2: encoding resolution in `New`: an explicitly supplied decoder wins
unconditionally (last option wins), regardless of the header's
locale-identifier byte; with no explicit decoder, the decoder is the fixed
table applied to absolute input byte 29 (reserved byte 17); the table maps
0x26→CP866, 0x64/0x65/0xC9→CP1251, 0x03→CP1252, 0x01→CP437, 0x02→CP850
and nothing else; and an unrecognized identifier with no explicit decoder
fails construction with the message instructing the caller to specify an
encoding explicitly. -/
theorem C2_encoding_resolution :
    (∀ (input : List Nat) (ds : List Decoder) (d : Decoder) (r : Reader),
        ds.getLast? = some d →
        New input (ds.map WithDecoder) = .ok r → r.decoder = some d) ∧
      (∀ (input : List Nat) (r : Reader),
        New input [] = .ok r →
        ∃ l, input[29]? = some l ∧ r.decoder = getDecoderByLDID l) ∧
      (getDecoderByLDID 0x26 = some .cp866 ∧
        getDecoderByLDID 0x64 = some .cp1251 ∧
        getDecoderByLDID 0x65 = some .cp1251 ∧
        getDecoderByLDID 0xC9 = some .cp1251 ∧
        getDecoderByLDID 0x03 = some .cp1252 ∧
        getDecoderByLDID 0x01 = some .cp437 ∧
        getDecoderByLDID 0x02 = some .cp850 ∧
        ∀ l, l ≠ 0x26 → l ≠ 0x64 → l ≠ 0x65 → l ≠ 0xC9 → l ≠ 0x03 →
          l ≠ 0x01 → l ≠ 0x02 → getDecoderByLDID l = none) ∧
      (∀ (input : List Nat) (r1 : Reader),
        readMetadata (emptyReader input) = .ok r1 → r1.decoder = none →
        New input [] = .error (.encodingUndetermined encodingErrorMessage)) := by
  refine ⟨?_, ?_, ?_, ?_⟩
  · intro input ds d r hlast hnew
    obtain ⟨r1, d2, hm, hd1, hf⟩ := New_ok_elim hnew
    rw [foldl_WithDecoder, foldl_last ds hlast] at hm
    obtain ⟨-, -, -, -, -, -, hdec1, -, -, -⟩ := readMetadata_ok hm
    have hr1d : r1.decoder = some d := by
      rw [hdec1]
    obtain ⟨-, -, -, -, -, -, -, hdec2, -, -⟩ := readFields_ok hf
    rw [hdec2, hr1d]
  · intro input r hnew
    obtain ⟨r1, d, hm, hd1, hf⟩ := New_ok_elim hnew
    simp only [List.foldl_nil] at hm
    obtain ⟨h32, -, -, -, -, -, hdec1, -, -, -⟩ := readMetadata_ok hm
    simp only [emptyReader] at hdec1 h32
    obtain ⟨-, -, -, -, -, -, -, hdec2, -, -⟩ := readFields_ok hf
    have h29 : 29 < input.length := by omega
    refine ⟨input.getD 29 0, ?_, ?_⟩
    · rw [List.getElem?_eq_getElem h29]
      simp [List.getD_eq_getElem?_getD, List.getElem?_eq_getElem h29]
    · rw [hdec2, hdec1]
  · refine ⟨rfl, rfl, rfl, rfl, rfl, rfl, rfl, ?_⟩
    intro l h1 h2 h3 h4 h5 h6 h7
    unfold getDecoderByLDID
    rw [if_neg h1, if_neg (by simp [h2, h3, h4]), if_neg h5, if_neg h6, if_neg h7]
  · intro input r1 hm hd1
    unfold New
    simp only [List.foldl_nil]
    rw [hm]
    dsimp only
    rw [hd1]

/-- C2 witness: an explicit CP1251 option overrides the sample file's 0x26
locale id, and the 0xFF locale id with no option fails with the message. -/
theorem C2_encoding_resolution_witness :
    (∃ r, New sampleDBF ([Decoder.cp1251].map WithDecoder) = .ok r ∧
        r.decoder = some .cp1251) ∧
      New badLdidDBF [] = .error (.encodingUndetermined encodingErrorMessage) :=
  ⟨⟨_, rfl, C2_encoding_resolution.1 sampleDBF [.cp1251] .cp1251 _ rfl rfl⟩,
    C2_encoding_resolution.2.2.2 badLdidDBF _ rfl rfl⟩

/-- C3: once the sticky error is set, `Read` returns that same error with
the reader — hence the underlying stream — completely unchanged, and `Next`
with the cursor below the record count still increments the cursor but
reports that no record is available. -/
theorem C3_sticky_shortcircuit (r : Reader) (e : GoError)
    (he : r.err = some e) (hc : r.currentRecord < r.recordsCount) :
    r.Read = (.err e, r) ∧
      r.Next = (false, { r with currentRecord := r.currentRecord + 1 }) := by
  refine ⟨Read_sticky r e he, ?_⟩
  unfold Reader.Next
  rw [if_neg (by omega), he]
  rfl

/-- C3 witness: the sample reader with a latched error. -/
theorem C3_sticky_shortcircuit_witness :
    stuckReader.Read = (.err .eof, stuckReader) ∧
      stuckReader.Next =
        (false, { stuckReader with currentRecord := stuckReader.currentRecord + 1 }) :=
  C3_sticky_shortcircuit stuckReader .eof rfl (by decide)

/-- C4: `Err` returns `none` exactly when the sticky error is `none` or is
the bare `io.EOF` sentinel; after a complete streaming pass over a
well-formed state `Err` is `none`; and after a mid-stream truncation
(fewer than `recordBytesNumber` bytes left, cursor below the record count)
the next `Read` latches an error under which `Err` is non-`none`. -/
theorem C4_err_accessor :
    (∀ r : Reader, r.Err = none ↔ (r.err = none ∨ r.err = some .eof)) ∧
      (∀ (r : Reader) (d : Decoder), r.decoder = some d → r.err = none →
        1 + fieldsSpan r.fields ≤ r.recordBytesNumber →
        (r.recordsCount - r.currentRecord) * r.recordBytesNumber ≤ r.stream.length →
        ((streamLoop r).2).Err = none) ∧
      (∀ (r : Reader) (d : Decoder), r.decoder = some d → r.err = none →
        r.currentRecord < r.recordsCount →
        r.stream.length < r.recordBytesNumber →
        ((r.Read).2).Err ≠ none) := by
  refine ⟨?_, ?_, ?_⟩
  · intro r
    unfold Reader.Err
    split
    · rename_i heq
      simp [heq]
    · rename_i hne
      cases hE : r.err with
      | none => simp
      | some e =>
        rw [hE] at hne
        simp [hne]
  · intro r d hd he hs hb
    obtain ⟨r', hsl, herr'⟩ :=
      streamLoop_inv (r.recordsCount - r.currentRecord) r d hd he rfl hs hb
    rw [hsl]
    unfold Reader.Err
    rw [herr']
    simp
  · intro r d hd he hc hl
    have hfail := readFull_short hl
    unfold Reader.Read
    rw [he, hd]
    dsimp only
    unfold readCore
    rw [hfail]
    dsimp only
    unfold Reader.Err
    cases hem : r.stream.isEmpty <;> simp [hem]

/-- C4 witness: a clean full pass over the sample reader, and a truncated
mid-record stream. -/
theorem C4_err_accessor_witness :
    ((streamLoop sampleReader).2).Err = none ∧
      ((truncReader.Read).2).Err ≠ none :=
  ⟨C4_err_accessor.2.1 sampleReader .cp866 rfl rfl (by decide) (by decide),
    C4_err_accessor.2.2 truncReader .cp866 rfl rfl (by decide) (by decide)⟩

/-- C5: after every successful construction, the parsed field list returned
by `Fields` has exactly the derived count of entries; that count is
`(headerLength - 32) / 32` in wrapping uint16 arithmetic — equal to the
plain integer division with the remainder silently discarded whenever
`headerLength ≥ 32` — and the input byte immediately after the last
descriptor equals the terminator 0x0D. -/
theorem C5_field_count (input : List Nat) (ds : List Decoder) (r : Reader)
    (h : New input (ds.map WithDecoder) = .ok r) :
    (r.Fields).length = r.fieldsCount ∧
      r.fieldsCount = fieldsCountCalc r.headerBytesNumber ∧
      (32 ≤ r.headerBytesNumber →
        r.fieldsCount = (r.headerBytesNumber - 32) / 32) ∧
      input[32 + 32 * r.fieldsCount]? = some 13 := by
  obtain ⟨r1, d, hm, hd1, hf⟩ := New_ok_elim h
  rw [foldl_WithDecoder] at hm
  obtain ⟨h32, hstr1, hhb1, hfc1, -, -, -, -, -, -⟩ := readMetadata_ok hm
  obtain ⟨hflen, hterm, -, hfc2, hhb2, -, -, -, -, -⟩ := readFields_ok hf
  simp only [emptyReader] at hstr1 hhb1
  have hfc : r.fieldsCount = fieldsCountCalc r.headerBytesNumber := by
    rw [hfc2, hhb2, hfc1]
  have hlt : r.headerBytesNumber < 65536 := by
    rw [hhb2, hhb1]
    exact le16_lt _ _
  refine ⟨?_, hfc, ?_, ?_⟩
  · show r.fields.length = r.fieldsCount
    rw [hflen, hfc2]
  · intro hge
    rw [hfc]
    have hmod : (r.headerBytesNumber + 65536 - 32) % 65536
        = r.headerBytesNumber - 32 := by omega
    unfold fieldsCountCalc
    rw [hmod]
  · rw [hfc2]
    rw [hstr1] at hterm
    rw [List.getElem?_drop] at hterm
    exact hterm

/-- C5 witness: the sample file (header length 65, one descriptor). -/
theorem C5_field_count_witness :
    (sampleReader.Fields).length = sampleReader.fieldsCount ∧
      sampleReader.fieldsCount = fieldsCountCalc sampleReader.headerBytesNumber ∧
      (32 ≤ sampleReader.headerBytesNumber →
        sampleReader.fieldsCount = (sampleReader.headerBytesNumber - 32) / 32) ∧
      sampleDBF[32 + 32 * sampleReader.fieldsCount]? = some 13 :=
  C5_field_count sampleDBF [] sampleReader rfl

/-- C6: for every Logical field and every raw byte slice, after whitespace
trimming a first byte of `T`/`t`/`Y`/`y` decodes to the bytes of "true", a
first byte of `F`/`f`/`N`/`n` decodes to the bytes of "false", and any
other first byte — or an empty slice — decodes to the empty string; this
decode never reports an error. -/
theorem C6_logical_decode (d : Decoder) (f : Field) (data : List Nat)
    (ht : f.Typ = 76) :
    ((trimSpace data).head? = none → decodeFieldValue d f data = ([], none)) ∧
      (∀ b, (trimSpace data).head? = some b →
        ((b = 84 ∨ b = 116 ∨ b = 89 ∨ b = 121) →
          decodeFieldValue d f data = (trueBytes, none)) ∧
        ((b = 70 ∨ b = 102 ∨ b = 78 ∨ b = 110) →
          decodeFieldValue d f data = (falseBytes, none)) ∧
        (¬(b = 84 ∨ b = 116 ∨ b = 89 ∨ b = 121) →
          ¬(b = 70 ∨ b = 102 ∨ b = 78 ∨ b = 110) →
          decodeFieldValue d f data = ([], none))) := by
  have hred : decodeFieldValue d f data =
      (match (trimSpace data).head? with
        | some b =>
          if b = 84 ∨ b = 116 ∨ b = 89 ∨ b = 121 then (trueBytes, none)
          else if b = 70 ∨ b = 102 ∨ b = 78 ∨ b = 110 then (falseBytes, none)
          else ([], none)
        | none => ([], none)) := by
    unfold decodeFieldValue
    rw [ht]
    norm_num
  refine ⟨?_, ?_⟩
  · intro hh
    rw [hred, hh]
  · intro b hb
    refine ⟨?_, ?_, ?_⟩
    · intro htr
      rw [hred, hb]
      simp only [if_pos htr]
    · intro hfa
      rw [hred, hb]
      by_cases htr : b = 84 ∨ b = 116 ∨ b = 89 ∨ b = 121
      · rcases htr with h | h | h | h <;> rcases hfa with h' | h' | h' | h' <;> omega
      · simp only [if_neg htr, if_pos hfa]
    · intro htr hfa
      rw [hred, hb]
      simp only [if_neg htr, if_neg hfa]

/-- C6 witness: inputs `T`, ` y`, `n`, a blank, and `?` under a codepage
decoder. -/
theorem C6_logical_decode_witness :
    decodeFieldValue .cp866 lField [84] = (trueBytes, none) ∧
      decodeFieldValue .cp866 lField [32, 121] = (trueBytes, none) ∧
      decodeFieldValue .cp866 lField [110] = (falseBytes, none) ∧
      decodeFieldValue .cp866 lField [32] = ([], none) ∧
      decodeFieldValue .cp866 lField [63] = ([], none) :=
  ⟨((C6_logical_decode .cp866 lField [84] rfl).2 84 rfl).1 (by omega),
    ((C6_logical_decode .cp866 lField [32, 121] rfl).2 121 rfl).1 (by omega),
    ((C6_logical_decode .cp866 lField [110] rfl).2 110 rfl).2.1 (by omega),
    (C6_logical_decode .cp866 lField [32] rfl).1 rfl,
    ((C6_logical_decode .cp866 lField [63] rfl).2 63 rfl).2.2 (by omega) (by omega)⟩

/-- C7: a successfully read record is flagged deleted exactly when the
record's first byte is 0x2A; every other first byte yields
`Deleted = false`, and the read still succeeds with no error. -/
theorem C7_deleted_flag (r : Reader) (rec : Record) (r' : Reader)
    (h : r.Read = (.ok rec, r')) :
    rec.Deleted = true ↔ r.stream.head? = some 42 := by
  unfold Reader.Read at h
  cases hE : r.err with
  | some e =>
    rw [hE] at h
    simp at h
  | none =>
    rw [hE] at h
    dsimp only at h
    cases hD : r.decoder with
    | none =>
      rw [hD] at h
      simp at h
    | some d =>
      rw [hD] at h
      dsimp only at h
      unfold readCore at h
      cases hF : readFull r.recordBytesNumber r.stream with
      | error e =>
        rw [hF] at h
        simp at h
      | ok p =>
        obtain ⟨recordBytes, s1⟩ := p
        rw [hF] at h
        dsimp only at h
        obtain ⟨hrb, hs1, hlen⟩ := readFull_ok hF
        cases hshape : recordBytes with
        | nil =>
          rw [hshape] at h
          simp at h
        | cons b0 rest =>
          rw [hshape] at h
          dsimp only at h
          cases hsf : sliceFields d r.fields (b0 :: rest) 1 with
          | panicked =>
            rw [hsf] at h
            simp at h
          | err e =>
            rw [hsf] at h
            simp at h
          | ok ps =>
            rw [hsf] at h
            dsimp only at h
            simp only [Prod.mk.injEq, ROutcome.ok.injEq] at h
            obtain ⟨hrec, -⟩ := h
            rw [hshape] at hrb
            have hhead : r.stream.head? = some b0 := take_cons_head hrb.symm
            rw [← hrec, hhead]
            simp [beq_iff_eq]

/-- C7 witness: reading the first sample record (first byte 0x20, active). -/
theorem C7_deleted_flag_witness :
    ∃ rec r', sampleReader.Read = (.ok rec, r') ∧
      (rec.Deleted = true ↔ sampleReader.stream.head? = some 42) :=
  ⟨_, _, rfl, C7_deleted_flag sampleReader _ _ rfl⟩

/-- C8: text-transcoding failures are never fatal: a field-descriptor name
whose bytes fail to transcode falls back to the raw null-trimmed bytes and
the descriptor still parses; a Character (or unknown-type) value whose
trimmed bytes fail to transcode falls back to the raw trimmed bytes; and
`decodeFieldValue` never reports an error at all, so no transcoding failure
can abort a record read or set the sticky error. -/
theorem C8_transcode_fallback :
    (∀ (d : Decoder) (s : List Nat), 32 ≤ s.length →
      d.bytes (trimRightNulls ((s.take 32).take 11)) = none →
      ∃ f rest, readField d s = .ok (f, rest) ∧
        f.Name = trimRightNulls ((s.take 32).take 11)) ∧
      (∀ (d : Decoder) (f : Field) (data : List Nat),
        f.Typ = 67 → d.bytes (trimSpace data) = none →
        decodeFieldValue d f data = (trimSpace data, none)) ∧
      (∀ (d : Decoder) (f : Field) (data : List Nat),
        f.Typ ∉ ([67, 78, 70, 68, 76, 77] : List Nat) →
        d.bytes (trimSpace data) = none →
        decodeFieldValue d f data = (trimSpace data, none)) ∧
      (∀ (d : Decoder) (f : Field) (data : List Nat),
        (decodeFieldValue d f data).2 = none) := by
  refine ⟨?_, ?_, ?_, fun d f data => decodeFieldValue_snd d f data⟩
  · intro d s h32 hfail
    have hfull : readFull 32 s = .ok (s.take 32, s.drop 32) := by
      unfold readFull
      rw [if_pos h32]
    refine ⟨{ Name := trimRightNulls ((s.take 32).take 11)
              Typ := (s.take 32).getD 11 0
              MemoryAddress := le32 ((s.take 32).getD 12 0) ((s.take 32).getD 13 0)
                ((s.take 32).getD 14 0) ((s.take 32).getD 15 0)
              Length := (s.take 32).getD 16 0
              DecimalCount := (s.take 32).getD 17 0 }, s.drop 32, ?_, rfl⟩
    unfold readField
    rw [hfull]
    dsimp only
    rw [hfail]
  · intro d f data ht hfail
    unfold decodeFieldValue
    rw [ht]
    norm_num
    rw [hfail]
  · intro d f data hmem hfail
    simp only [List.mem_cons, List.not_mem_nil, or_false, not_or] at hmem
    obtain ⟨h67, h78, h70, h68, h76, h77⟩ := hmem
    unfold decodeFieldValue
    rw [if_neg h67, if_neg (by simp [h78, h70]), if_neg h68, if_neg h76,
      if_neg h77, hfail]

/-- C8 witness: an always-failing custom decoder on a descriptor and on a
Character value. -/
theorem C8_transcode_fallback_witness :
    (∃ f rest, readField failingDecoder (sampleDBF.drop 32) = .ok (f, rest) ∧
        f.Name = trimRightNulls (((sampleDBF.drop 32).take 32).take 11)) ∧
      decodeFieldValue failingDecoder cField [65, 66] = (trimSpace [65, 66], none) :=
  ⟨C8_transcode_fallback.1 failingDecoder (sampleDBF.drop 32) (by decide) rfl,
    C8_transcode_fallback.2.1 failingDecoder cField [65, 66] rfl rfl⟩

/-- C9: whenever the schema satisfies `1 + Σ field lengths ≤ recordByteLength`
(with a decoder present), the sequential per-field slicing in `Read` never
indexes outside the record buffer: the panic outcome is unreachable,
whatever the stream contents, cursor, or error state. -/
theorem C9_no_out_of_bounds (r : Reader) (d : Decoder)
    (hd : r.decoder = some d)
    (hs : 1 + fieldsSpan r.fields ≤ r.recordBytesNumber) :
    (r.Read).1 ≠ ROutcome.panicked := by
  unfold Reader.Read
  cases hE : r.err with
  | some e => simp
  | none =>
    rw [hd]
    dsimp only
    unfold readCore
    cases hF : readFull r.recordBytesNumber r.stream with
    | error e =>
      dsimp only
      simp
    | ok p =>
      obtain ⟨recordBytes, s1⟩ := p
      obtain ⟨hrb, hs1, hlen⟩ := readFull_ok hF
      have hlen2 : recordBytes.length = r.recordBytesNumber := by
        rw [hrb, List.length_take]
        omega
      cases hshape : recordBytes with
      | nil =>
        rw [hshape] at hlen2
        simp at hlen2
        omega
      | cons b0 rest =>
        obtain ⟨ps, hps⟩ := sliceFields_ok d r.fields (b0 :: rest) 1
          (by rw [← hshape, hlen2]; exact hs)
        dsimp only
        rw [hps]
        simp

/-- C9 witness: the sample reader's slicing stays in bounds. -/
theorem C9_no_out_of_bounds_witness :
    (sampleReader.Read).1 ≠ ROutcome.panicked :=
  C9_no_out_of_bounds sampleReader .cp866 rfl (by decide)

/-- C10: the field count is derived in unsigned 16-bit arithmetic: for a
declared header length below 32 the subtraction `headerLength - 32` wraps
modulo 2^16 before the division by 32, so the derived count is a large
value — `headerLength = 0` gives 2047 — rather than zero, and header
parsing succeeds at that step rather than erroring. -/
theorem C10_uint16_wrap :
    (∀ h : Nat, h < 32 →
      fieldsCountCalc h = (h + 65504) / 32 ∧ 2046 ≤ fieldsCountCalc h) ∧
      fieldsCountCalc 0 = 2047 ∧
      (∃ r, readMetadata (emptyReader zeroHeaderDBF) = .ok r ∧
        r.fieldsCount = 2047) := by
  refine ⟨?_, by decide, ⟨_, rfl, rfl⟩⟩
  intro h hh
  unfold fieldsCountCalc
  omega

/-- C10 witness: header length 0 wraps to field count 2047. -/
theorem C10_uint16_wrap_witness :
    fieldsCountCalc 0 = (0 + 65504) / 32 ∧ 2046 ≤ fieldsCountCalc 0 :=
  C10_uint16_wrap.1 0 (by decide)

end Dbf
